import Mathlib

/-!
Verification of the pagination/continuation engine of the BININCEAPI
repository (`fetch_all_klines_for_period` in `src/local_binance_fetcher.py`
and `src/binance_data_fetcher.py`; the two copies are line-for-line
identical in the fetch loop).

The embedding is shallow: a Python `str` is modelled as `List Char`; the
Python `while` loop becomes a fuel-indexed recursive function `fetchLoop`;
the injected transport (`get_klines`'s HTTP layer) becomes a pure
`BatchFetch` function returning `Option (List Kline)` where `none` models
a network/parse/HTTP error caught inside `get_klines`; the Python `int()`
call on the interval's numeric prefix becomes `pyInt`, returning `none`
where `int()` would raise `ValueError`.  An exception escaping the loop is
modelled by the `FetchOutcome.intervalError` constructor; possible
non-termination of the `while` loop is made visible as
`FetchOutcome.outOfFuel`.
-/

namespace BinanceFetch

/-- A Python string, as a sequence of characters. -/
abbrev PyStr := List Char

/-- `s.endswith(c)` for a one-character suffix `c`: the last character of
`s` equals `c` (false on the empty string). -/
def endsWithChar (s : PyStr) (c : Char) : Bool :=
  match s.getLast? with
  | some d => d == c
  | none => false

/-- Numeric value of a digit string (used only under an all-digits guard). -/
def digitsVal (l : List Char) : Nat :=
  l.foldl (fun a c => a * 10 + (c.toNat - '0'.toNat)) 0

/-- Model of Python `int(s)` on an ASCII decimal string: strip surrounding
whitespace, accept an optional sign followed by a non-empty digit string;
`none` models the `ValueError` that `int()` raises otherwise. -/
def pyInt (s : PyStr) : Option Int :=
  let t := ((s.dropWhile Char.isWhitespace).reverse.dropWhile Char.isWhitespace).reverse
  match t with
  | '-' :: rest =>
      if rest ≠ [] ∧ rest.all Char.isDigit then some (-(digitsVal rest : Int)) else none
  | '+' :: rest =>
      if rest ≠ [] ∧ rest.all Char.isDigit then some (digitsVal rest : Int) else none
  | rest =>
      if rest ≠ [] ∧ rest.all Char.isDigit then some (digitsVal rest : Int) else none

/-- One kline record: `openTime` is the first element of the raw tuple
(epoch milliseconds, the only field the engine reads, via
`int(klines_batch[-1][0])`); the remaining tuple fields are opaque to the
engine and carried verbatim. -/
structure Kline where
  openTime : Int
  fields : List Int
  deriving Repr, DecidableEq

/-- The arguments of one `get_klines` invocation, recorded so that the
engine's request trace can be reasoned about. -/
structure BatchCall where
  symbol : PyStr
  interval : PyStr
  fromMs : Int
  toMs : Int
  deriving Repr, DecidableEq

/-- The injected transport capability: one bounded request.  `none` models
a network / HTTP / JSON-decoding error (in the source these are caught
inside `get_klines` itself). -/
abbrev BatchFetch := PyStr → PyStr → Int → Int → Option (List Kline)

/-- `get_klines` (src/local_binance_fetcher.py lines 45-82): performs one
request and returns its data; every caught error is converted into the
empty list. -/
def get_klines (fetch : BatchFetch) (symbol interval : PyStr)
    (startTimeMs endTimeMs : Int) : List Kline :=
  match fetch symbol interval startTimeMs endTimeMs with
  | some data => data
  | none => []

/-- The interval-duration computation inlined in the loop body
(src/local_binance_fetcher.py lines 112-121): dispatch on the trailing
unit character (`h`, then `m`, then `d`), multiply the parsed numeric
prefix of `interval[:-1]`, and fall back to one hour (with a printed
warning) for an unrecognized unit.  `none` models the `ValueError` raised
by `int(interval[:-1])`. -/
def intervalDurationMs (interval : PyStr) : Option Int :=
  if endsWithChar interval 'h' then
    (pyInt interval.dropLast).map (fun n => n * (60 * 60 * 1000))
  else if endsWithChar interval 'm' then
    (pyInt interval.dropLast).map (fun n => n * (60 * 1000))
  else if endsWithChar interval 'd' then
    (pyInt interval.dropLast).map (fun n => n * (24 * 60 * 60 * 1000))
  else
    some (60 * 60 * 1000)

/-- Result of one run of the fetch loop: a normal return, the propagated
`ValueError` from the interval-format computation, or fuel exhaustion
(the Python `while` loop has no built-in bound). -/
inductive FetchOutcome where
  | ok (klines : List Kline)
  | intervalError
  | outOfFuel
  deriving Repr, DecidableEq

/-- The `while current_start_time < end_time_ms` loop of
`fetch_all_klines_for_period` (src/local_binance_fetcher.py lines
103-136), with an explicit fuel parameter and an explicit trace of the
`get_klines` calls made.  A non-empty batch is appended whole, the next
window starts at the last record's `openTime` plus the interval duration,
and a batch shorter than 1000 records ends the loop; an empty batch
(which is also how every transport error surfaces) ends the loop with
what has accumulated. -/
def fetchLoop (fetch : BatchFetch) (symbol interval : PyStr) (endTimeMs : Int) :
    Nat → Int → List Kline → List BatchCall → FetchOutcome × List BatchCall
  | 0, _, _, calls => (.outOfFuel, calls)
  | fuel + 1, currentStart, allKlines, calls =>
    if currentStart < endTimeMs then
      let batch := get_klines fetch symbol interval currentStart endTimeMs
      let calls2 := calls ++ [⟨symbol, interval, currentStart, endTimeMs⟩]
      if batch.isEmpty then
        (.ok allKlines, calls2)
      else
        match intervalDurationMs interval with
        | none => (.intervalError, calls2)
        | some step =>
          if batch.length < 1000 then
            (.ok (allKlines ++ batch), calls2)
          else
            fetchLoop fetch symbol interval endTimeMs fuel
              ((batch.getLastD ⟨0, []⟩).openTime + step) (allKlines ++ batch) calls2
    else
      (.ok allKlines, calls)

/-- `fetch_all_klines_for_period(symbol, interval, start_time_ms,
end_time_ms)`: run the loop from `start_time_ms` with an empty
accumulator.  The extra `fuel` argument bounds the number of iterations
observed; `FetchOutcome.outOfFuel` marks runs that would still be looping. -/
def fetch_all_klines_for_period (fetch : BatchFetch) (symbol interval : PyStr)
    (startTimeMs endTimeMs : Int) (fuel : Nat) : FetchOutcome × List BatchCall :=
  fetchLoop fetch symbol interval endTimeMs fuel startTimeMs [] []

/-! ### Branch-by-branch unfolding lemmas for `fetchLoop` -/

theorem fetchLoop_zero {fetch : BatchFetch} {s i : PyStr} {e c : Int}
    {a : List Kline} {cs : List BatchCall} :
    fetchLoop fetch s i e 0 c a cs = (.outOfFuel, cs) := rfl

theorem fetchLoop_exit {fetch : BatchFetch} {s i : PyStr} {e : Int} {n : Nat} {c : Int}
    {a : List Kline} {cs : List BatchCall} (h : ¬ c < e) :
    fetchLoop fetch s i e (n + 1) c a cs = (.ok a, cs) := by
  simp [fetchLoop, h]

theorem fetchLoop_emptyBatch {fetch : BatchFetch} {s i : PyStr} {e : Int} {n : Nat}
    {c : Int} {a : List Kline} {cs : List BatchCall}
    (h : c < e) (hb : get_klines fetch s i c e = []) :
    fetchLoop fetch s i e (n + 1) c a cs = (.ok a, cs ++ [⟨s, i, c, e⟩]) := by
  simp [fetchLoop, h, hb]

theorem fetchLoop_noDuration {fetch : BatchFetch} {s i : PyStr} {e : Int} {n : Nat}
    {c : Int} {a : List Kline} {cs : List BatchCall}
    (h : c < e) (hb : get_klines fetch s i c e ≠ [])
    (hd : intervalDurationMs i = none) :
    fetchLoop fetch s i e (n + 1) c a cs = (.intervalError, cs ++ [⟨s, i, c, e⟩]) := by
  simp [fetchLoop, h, hb, hd]

theorem fetchLoop_underfill {fetch : BatchFetch} {s i : PyStr} {e : Int} {n : Nat}
    {c : Int} {a : List Kline} {cs : List BatchCall} {step : Int}
    (h : c < e) (hb : get_klines fetch s i c e ≠ [])
    (hd : intervalDurationMs i = some step)
    (hlen : (get_klines fetch s i c e).length < 1000) :
    fetchLoop fetch s i e (n + 1) c a cs
      = (.ok (a ++ get_klines fetch s i c e), cs ++ [⟨s, i, c, e⟩]) := by
  simp [fetchLoop, h, hb, hd, hlen]

theorem fetchLoop_step {fetch : BatchFetch} {s i : PyStr} {e : Int} {n : Nat}
    {c : Int} {a : List Kline} {cs : List BatchCall} {step : Int}
    (h : c < e) (hb : get_klines fetch s i c e ≠ [])
    (hd : intervalDurationMs i = some step)
    (hlen : ¬ (get_klines fetch s i c e).length < 1000) :
    fetchLoop fetch s i e (n + 1) c a cs
      = fetchLoop fetch s i e n
          (((get_klines fetch s i c e).getLastD ⟨0, []⟩).openTime + step)
          (a ++ get_klines fetch s i c e) (cs ++ [⟨s, i, c, e⟩]) := by
  simp [fetchLoop, h, hb, hd, hlen]

/-! ### Structural lemmas about whole runs -/

/-- The fallback-carrying last element of a non-empty list is a member. -/
theorem getLastD_mem {α : Type} : ∀ (l : List α), l ≠ [] → ∀ d : α, l.getLastD d ∈ l
  | [x], _, d => by simp [List.getLastD]
  | x :: y :: ys, _, d => by
      exact List.Mem.tail x (getLastD_mem (y :: ys) (by simp) x)

/-- A run only ever appends to the incoming call trace. -/
theorem fetchLoop_trace_extend (fetch : BatchFetch) (s i : PyStr) (e : Int) :
    ∀ fuel (c : Int) (a : List Kline) (cs : List BatchCall),
      ∃ nc, (fetchLoop fetch s i e fuel c a cs).2 = cs ++ nc := by
  intro fuel
  induction fuel with
  | zero => exact fun c a cs => ⟨[], by rw [fetchLoop_zero]; simp⟩
  | succ n ih =>
    intro c a cs
    by_cases h : c < e
    · by_cases hb : get_klines fetch s i c e = []
      · exact ⟨[⟨s, i, c, e⟩], by rw [fetchLoop_emptyBatch h hb]⟩
      · cases hd : intervalDurationMs i with
        | none => exact ⟨[⟨s, i, c, e⟩], by rw [fetchLoop_noDuration h hb hd]⟩
        | some step =>
          by_cases hlen : (get_klines fetch s i c e).length < 1000
          · exact ⟨[⟨s, i, c, e⟩], by rw [fetchLoop_underfill h hb hd hlen]⟩
          · obtain ⟨nc, hnc⟩ := ih
              (((get_klines fetch s i c e).getLastD ⟨0, []⟩).openTime + step)
              (a ++ get_klines fetch s i c e) (cs ++ [⟨s, i, c, e⟩])
            exact ⟨⟨s, i, c, e⟩ :: nc, by rw [fetchLoop_step h hb hd hlen, hnc]; simp⟩
    · exact ⟨[], by rw [fetchLoop_exit h]; simp⟩

/-- While the window is open, the very next call of the run is the one at
the current start, with the run's fixed end bound. -/
theorem fetchLoop_first_call {fetch : BatchFetch} {s i : PyStr} {e : Int}
    {n : Nat} {c : Int} {a : List Kline} {cs : List BatchCall} (h : c < e) :
    ∃ rest, (fetchLoop fetch s i e (n + 1) c a cs).2 = cs ++ [⟨s, i, c, e⟩] ++ rest := by
  by_cases hb : get_klines fetch s i c e = []
  · exact ⟨[], by rw [fetchLoop_emptyBatch h hb]; simp⟩
  · cases hd : intervalDurationMs i with
    | none => exact ⟨[], by rw [fetchLoop_noDuration h hb hd]; simp⟩
    | some step =>
      by_cases hlen : (get_klines fetch s i c e).length < 1000
      · exact ⟨[], by rw [fetchLoop_underfill h hb hd hlen]; simp⟩
      · obtain ⟨nc, hnc⟩ := fetchLoop_trace_extend fetch s i e n
          (((get_klines fetch s i c e).getLastD ⟨0, []⟩).openTime + step)
          (a ++ get_klines fetch s i c e) (cs ++ [⟨s, i, c, e⟩])
        exact ⟨nc, by rw [fetchLoop_step h hb hd hlen, hnc]⟩

/-- With a valid interval duration, a positive step, and an upstream whose
batches never contain a record dated before the requested window start, a
normal return appends to the incoming accumulator only records dated at or
after the current window start. -/
theorem fetchLoop_ok_suffix {fetch : BatchFetch} {s i : PyStr} {e step : Int}
    (hd : intervalDurationMs i = some step) (hpos : 0 < step)
    (hup : ∀ (fromMs : Int) (r : Kline), r ∈ get_klines fetch s i fromMs e → fromMs ≤ r.openTime) :
    ∀ (fuel : Nat) (c : Int) (a : List Kline) (cs : List BatchCall) (out : List Kline)
      (tr : List BatchCall),
      fetchLoop fetch s i e fuel c a cs = (.ok out, tr) →
      ∃ suf, out = a ++ suf ∧ ∀ r ∈ suf, c ≤ r.openTime := by
  intro fuel
  induction fuel with
  | zero =>
    intro c a cs out tr hrun
    rw [fetchLoop_zero] at hrun
    exact absurd (congrArg Prod.fst hrun) (by simp)
  | succ n ih =>
    intro c a cs out tr hrun
    by_cases h : c < e
    · by_cases hb : get_klines fetch s i c e = []
      · rw [fetchLoop_emptyBatch h hb] at hrun
        have hout : a = out := by
          have h1 := congrArg Prod.fst hrun
          simpa using h1
        exact ⟨[], by simp [hout], by simp⟩
      · by_cases hlen : (get_klines fetch s i c e).length < 1000
        · rw [fetchLoop_underfill h hb hd hlen] at hrun
          have hout : a ++ get_klines fetch s i c e = out := by
            have h1 := congrArg Prod.fst hrun
            simpa using h1
          exact ⟨get_klines fetch s i c e, hout.symm, fun r hr => hup c r hr⟩
        · rw [fetchLoop_step h hb hd hlen] at hrun
          obtain ⟨suf, hsuf, hlb⟩ := ih _ _ _ _ _ hrun
          have hTc : c ≤ ((get_klines fetch s i c e).getLastD ⟨0, []⟩).openTime :=
            hup c _ (getLastD_mem _ hb _)
          refine ⟨get_klines fetch s i c e ++ suf, by simp [hsuf], ?_⟩
          intro r hr
          rcases List.mem_append.1 hr with h1 | h2
          · exact hup c r h1
          · have h3 := hlb r h2
            omega
    · rw [fetchLoop_exit h] at hrun
      have hout : a = out := by
        have h1 := congrArg Prod.fst hrun
        simpa using h1
      exact ⟨[], by simp [hout], by simp⟩

/-- With a valid interval duration, a positive step, and an upstream whose
batches never contain a record dated before the requested window start:
every call a run adds to the trace carries the run's symbol, interval and
fixed end bound, starts no earlier than the current window start and
strictly before the end bound, and successive request starts strictly
increase. -/
theorem fetchLoop_calls_spec {fetch : BatchFetch} {s i : PyStr} {e step : Int}
    (hd : intervalDurationMs i = some step) (hpos : 0 < step)
    (hup : ∀ (fromMs : Int) (r : Kline), r ∈ get_klines fetch s i fromMs e → fromMs ≤ r.openTime) :
    ∀ (fuel : Nat) (c : Int) (a : List Kline) (cs : List BatchCall),
      ∃ nc, (fetchLoop fetch s i e fuel c a cs).2 = cs ++ nc ∧
        (∀ x ∈ nc, x.symbol = s ∧ x.interval = i ∧ x.toMs = e ∧ c ≤ x.fromMs ∧ x.fromMs < e) ∧
        nc.Pairwise (fun x y => x.fromMs < y.fromMs) := by
  intro fuel
  induction fuel with
  | zero =>
    intro c a cs
    exact ⟨[], by rw [fetchLoop_zero]; simp, by simp, by simp⟩
  | succ n ih =>
    intro c a cs
    by_cases h : c < e
    · by_cases hb : get_klines fetch s i c e = []
      · exact ⟨[⟨s, i, c, e⟩], by rw [fetchLoop_emptyBatch h hb], by simp [h], by simp⟩
      · by_cases hlen : (get_klines fetch s i c e).length < 1000
        · exact ⟨[⟨s, i, c, e⟩], by rw [fetchLoop_underfill h hb hd hlen], by simp [h], by simp⟩
        · obtain ⟨nc, hnc, hall, hpw⟩ := ih
            (((get_klines fetch s i c e).getLastD ⟨0, []⟩).openTime + step)
            (a ++ get_klines fetch s i c e) (cs ++ [⟨s, i, c, e⟩])
          have hTc : c ≤ ((get_klines fetch s i c e).getLastD ⟨0, []⟩).openTime :=
            hup c _ (getLastD_mem _ hb _)
          refine ⟨⟨s, i, c, e⟩ :: nc, ?_, ?_, ?_⟩
          · rw [fetchLoop_step h hb hd hlen, hnc]
            simp
          · intro x hx
            rcases List.mem_cons.1 hx with h1 | h2
            · subst h1
              exact ⟨rfl, rfl, rfl, le_refl c, h⟩
            · obtain ⟨e1, e2, e3, e4, e5⟩ := hall x h2
              exact ⟨e1, e2, e3, by omega, e5⟩
          · refine List.Pairwise.cons ?_ hpw
            intro y hy
            have h4 := (hall y hy).2.2.2.1
            show c < y.fromMs
            omega
    · exact ⟨[], by rw [fetchLoop_exit h]; simp, by simp, by simp⟩

/-- With a valid interval duration, no run ever surfaces the
interval-format exception: only the `ValueError` from the interval prefix
can escape the loop. -/
theorem fetchLoop_ne_intervalError {fetch : BatchFetch} {s i : PyStr} {e step : Int}
    (hd : intervalDurationMs i = some step) :
    ∀ (fuel : Nat) (c : Int) (a : List Kline) (cs : List BatchCall),
      (fetchLoop fetch s i e fuel c a cs).1 ≠ .intervalError := by
  intro fuel
  induction fuel with
  | zero =>
    intro c a cs
    rw [fetchLoop_zero]
    simp
  | succ n ih =>
    intro c a cs
    by_cases h : c < e
    · by_cases hb : get_klines fetch s i c e = []
      · rw [fetchLoop_emptyBatch h hb]; simp
      · by_cases hlen : (get_klines fetch s i c e).length < 1000
        · rw [fetchLoop_underfill h hb hd hlen]; simp
        · rw [fetchLoop_step h hb hd hlen]
          exact ih _ _ _
    · rw [fetchLoop_exit h]; simp

/-- Termination: with a valid positive interval duration and an upstream
whose non-empty batches end no earlier than the requested window start,
the loop finishes within `(endTimeMs - start) / step` iterations — the
window start strictly increases by at least `step` each round. -/
theorem fetchLoop_ne_outOfFuel {fetch : BatchFetch} {s i : PyStr} {e step : Int}
    (hd : intervalDurationMs i = some step) (hpos : 0 < step)
    (hlast : ∀ fromMs : Int, get_klines fetch s i fromMs e ≠ [] →
      fromMs ≤ ((get_klines fetch s i fromMs e).getLastD ⟨0, []⟩).openTime) :
    ∀ (fuel : Nat) (c : Int), e - c ≤ step * fuel →
      ∀ (a : List Kline) (cs : List BatchCall),
      (fetchLoop fetch s i e (fuel + 1) c a cs).1 ≠ .outOfFuel := by
  intro fuel
  induction fuel with
  | zero =>
    intro c hc a cs
    have h : ¬ c < e := by simp at hc; omega
    rw [fetchLoop_exit h]
    simp
  | succ n ih =>
    intro c hc a cs
    by_cases h : c < e
    · by_cases hb : get_klines fetch s i c e = []
      · rw [fetchLoop_emptyBatch h hb]; simp
      · by_cases hlen : (get_klines fetch s i c e).length < 1000
        · rw [fetchLoop_underfill h hb hd hlen]; simp
        · rw [fetchLoop_step h hb hd hlen]
          apply ih
          have hT := hlast c hb
          have hsplit : step * ((n : Int) + 1) = step * (n : Int) + step := by ring
          push_cast at hc
          rw [hsplit] at hc
          generalize step * (n : Int) = A at hc ⊢
          omega
    · rw [fetchLoop_exit h]; simp

/-! ### The canonical synthetic upstream: contiguous grid batches -/

/-- A record carrying only its open time. -/
def mkKline (t : Int) : Kline := ⟨t, []⟩

/-- Number of grid points `fromMs, fromMs + step, …` strictly below
`endTimeMs` (zero when the window is already closed). -/
def gridCount (step endTimeMs fromMs : Int) : Nat :=
  if fromMs < endTimeMs then ((endTimeMs - fromMs).toNat - 1) / step.toNat + 1 else 0

/-- One page of the canonical contiguous upstream: the first
`min (gridCount …) 1000` grid points at the interval's step. -/
def gridBatch (step endTimeMs fromMs : Int) : List Kline :=
  (List.range (min (gridCount step endTimeMs fromMs) 1000)).map
    (fun k : Nat => mkKline (fromMs + (k : Int) * step))

/-- The canonical synthetic upstream: every request is answered with the
next contiguous page of grid records below the requested end bound. -/
def gridFetch (step : Int) : BatchFetch := fun _ _ fromMs toMs =>
  some (gridBatch step toMs fromMs)

/-- All grid points in `[fromMs, endTimeMs)`. -/
def gridAll (step endTimeMs fromMs : Int) : List Kline :=
  (List.range (gridCount step endTimeMs fromMs)).map
    (fun k : Nat => mkKline (fromMs + (k : Int) * step))

theorem gridCount_pos {step e fromMs : Int} (h : fromMs < e) :
    1 ≤ gridCount step e fromMs := by
  simp [gridCount, h]

theorem lt_gridCount_iff {step e fromMs : Int} (hpos : 0 < step) (k : Nat) :
    k < gridCount step e fromMs ↔ fromMs + (k : Int) * step < e := by
  unfold gridCount
  by_cases h : fromMs < e
  · simp only [h, if_true]
    have hD : ((e - fromMs).toNat : Int) = e - fromMs := Int.toNat_of_nonneg (by omega)
    have hs : ((step.toNat : Int)) = step := Int.toNat_of_nonneg (by omega)
    have hs0 : 0 < step.toNat := by omega
    have hD1 : 1 ≤ (e - fromMs).toNat := by omega
    constructor
    · intro hk
      have h1 : k ≤ ((e - fromMs).toNat - 1) / step.toNat := by omega
      have h2 : k * step.toNat ≤ (e - fromMs).toNat - 1 := (Nat.le_div_iff_mul_le hs0).1 h1
      have h3 : k * step.toNat < (e - fromMs).toNat := by omega
      have h4 : ((k * step.toNat : Nat) : Int) < ((e - fromMs).toNat : Int) := by
        exact_mod_cast h3
      rw [hD] at h4
      push_cast [hs] at h4
      generalize hK : (k : Int) * step = K at h4 ⊢
      omega
    · intro hk
      have h4 : ((k : Int) * step) < e - fromMs := by
        generalize hK : (k : Int) * step = K at hk ⊢
        omega
      have h5 : ((k * step.toNat : Nat) : Int) < ((e - fromMs).toNat : Int) := by
        rw [hD]
        push_cast [hs]
        exact h4
      have h3 : k * step.toNat < (e - fromMs).toNat := by exact_mod_cast h5
      have h2 : k * step.toNat ≤ (e - fromMs).toNat - 1 := by omega
      have h1 : k ≤ ((e - fromMs).toNat - 1) / step.toNat := (Nat.le_div_iff_mul_le hs0).2 h2
      omega
  · simp only [h, if_false]
    constructor
    · intro hk
      exact absurd hk (by omega)
    · intro hk
      exfalso
      have h0 : (0 : Int) ≤ (k : Int) * step :=
        mul_nonneg (by exact_mod_cast Nat.zero_le k) hpos.le
      generalize hK : (k : Int) * step = K at hk h0
      omega

theorem natEqOfLtIff {a b : Nat} (h : ∀ k, k < a ↔ k < b) : a = b := by
  rcases Nat.lt_trichotomy a b with h1 | h1 | h1
  · exact absurd ((h a).2 h1) (lt_irrefl a)
  · exact h1
  · exact absurd ((h b).1 h1) (lt_irrefl b)

theorem gridCount_shift {step e fromMs : Int} (hpos : 0 < step)
    (h1000 : 1000 ≤ gridCount step e fromMs) :
    gridCount step e (fromMs + 1000 * step) = gridCount step e fromMs - 1000 := by
  apply natEqOfLtIff
  intro k
  rw [lt_gridCount_iff hpos]
  rw [show fromMs + 1000 * step + (k : Int) * step
        = fromMs + ((1000 + k : Nat) : Int) * step by push_cast; ring]
  rw [← lt_gridCount_iff hpos (1000 + k)]
  omega

theorem gridBatch_length {step e fromMs : Int} :
    (gridBatch step e fromMs).length = min (gridCount step e fromMs) 1000 := by
  simp [gridBatch]

theorem gridBatch_ne_nil {step e fromMs : Int} (h : fromMs < e) :
    gridBatch step e fromMs ≠ [] := by
  have h1 := @gridCount_pos step e fromMs h
  apply List.ne_nil_of_length_pos
  rw [gridBatch_length]
  omega

theorem gridBatch_eq_gridAll {step e fromMs : Int}
    (h : gridCount step e fromMs ≤ 1000) :
    gridBatch step e fromMs = gridAll step e fromMs := by
  unfold gridBatch gridAll
  rw [Nat.min_eq_left h]

theorem gridBatch_getLastD {step e fromMs : Int}
    (h1000 : 1000 ≤ gridCount step e fromMs) :
    (gridBatch step e fromMs).getLastD ⟨0, []⟩ = mkKline (fromMs + 999 * step) := by
  unfold gridBatch
  rw [Nat.min_eq_right h1000]
  rw [show (1000 : Nat) = 999 + 1 from rfl, List.range_succ, List.map_append]
  simp [List.getLastD_concat]

theorem gridAll_decomp {step e fromMs : Int} (hpos : 0 < step)
    (h1000 : 1000 ≤ gridCount step e fromMs) :
    gridAll step e fromMs = gridBatch step e fromMs ++ gridAll step e (fromMs + 1000 * step) := by
  have hshift := gridCount_shift hpos h1000
  have hmin : min (gridCount step e fromMs) 1000 = 1000 := Nat.min_eq_right h1000
  unfold gridAll gridBatch
  rw [hshift, hmin]
  obtain ⟨m, hm⟩ : ∃ m, gridCount step e fromMs = 1000 + m :=
    ⟨gridCount step e fromMs - 1000, by omega⟩
  rw [hm, Nat.add_sub_cancel_left, List.range_add, List.map_append, List.map_map]
  congr 1
  apply List.map_congr_left
  intro k _
  show mkKline (fromMs + ((1000 + k : Nat) : Int) * step)
      = mkKline (fromMs + 1000 * step + (k : Int) * step)
  congr 1
  push_cast
  ring

/-- Run of the engine against any upstream answering every request with
the canonical contiguous grid page: the run returns normally with exactly
all grid points of `[c, e)` appended to the accumulator. -/
theorem fetchLoop_grid_run {fetch : BatchFetch} {s i : PyStr} {e step : Int}
    (hd : intervalDurationMs i = some step) (hpos : 0 < step)
    (hgrid : ∀ fromMs : Int, get_klines fetch s i fromMs e = gridBatch step e fromMs) :
    ∀ (fuel : Nat) (c : Int) (a : List Kline) (cs : List BatchCall),
      gridCount step e c ≤ fuel * 1000 →
      ∃ tr, fetchLoop fetch s i e (fuel + 1) c a cs = (.ok (a ++ gridAll step e c), tr) := by
  intro fuel
  induction fuel with
  | zero =>
    intro c a cs hfuel
    have h : ¬ c < e := by
      intro hc
      have h1 := @gridCount_pos step e c hc
      omega
    have h0 : gridCount step e c = 0 := by omega
    refine ⟨cs, ?_⟩
    rw [fetchLoop_exit h]
    simp [gridAll, h0]
  | succ n ih =>
    intro c a cs hfuel
    by_cases h : c < e
    · have hb : get_klines fetch s i c e ≠ [] := by
        rw [hgrid]
        exact gridBatch_ne_nil h
      by_cases hcap : gridCount step e c < 1000
      · have hlen : (get_klines fetch s i c e).length < 1000 := by
          rw [hgrid, gridBatch_length]
          omega
        refine ⟨cs ++ [⟨s, i, c, e⟩], ?_⟩
        rw [fetchLoop_underfill h hb hd hlen, hgrid,
          gridBatch_eq_gridAll (Nat.le_of_lt hcap)]
      · push_neg at hcap
        have hlen : ¬ (get_klines fetch s i c e).length < 1000 := by
          rw [hgrid, gridBatch_length]
          omega
        have hshift := gridCount_shift hpos hcap
        obtain ⟨tr, htr⟩ := ih (c + 1000 * step) (a ++ get_klines fetch s i c e)
          (cs ++ [⟨s, i, c, e⟩]) (by omega)
        refine ⟨tr, ?_⟩
        rw [fetchLoop_step h hb hd hlen]
        have hlast : ((get_klines fetch s i c e).getLastD ⟨0, []⟩).openTime + step
            = c + 1000 * step := by
          rw [hgrid, gridBatch_getLastD hcap]
          show c + 999 * step + step = c + 1000 * step
          ring
        rw [hlast, htr, hgrid]
        rw [@gridAll_decomp step e c hpos hcap]
        simp
    · have h0 : gridCount step e c = 0 := by simp [gridCount, h]
      refine ⟨cs, ?_⟩
      rw [fetchLoop_exit h]
      simp [gridAll, h0]

/-- The grid sequence is strictly increasing in `openTime`. -/
theorem gridAll_pairwise {step e fromMs : Int} (hpos : 0 < step) :
    (gridAll step e fromMs).Pairwise (fun r r2 => r.openTime < r2.openTime) := by
  unfold gridAll
  rw [List.pairwise_map]
  apply List.Pairwise.imp ?_ (List.pairwise_lt_range (gridCount step e fromMs))
  intro a b hab
  show fromMs + (a : Int) * step < fromMs + (b : Int) * step
  have hab2 : (a : Int) < (b : Int) := by exact_mod_cast hab
  exact add_lt_add_left (mul_lt_mul_of_pos_right hab2 hpos) fromMs

/-- The grid sequence starts exactly at the requested start. -/
theorem gridAll_head {step e fromMs : Int} (h : fromMs < e) :
    (gridAll step e fromMs).head? = some (mkKline fromMs) := by
  have h1 := @gridCount_pos step e fromMs h
  unfold gridAll
  obtain ⟨m, hm⟩ : ∃ m, gridCount step e fromMs = m + 1 :=
    ⟨gridCount step e fromMs - 1, by omega⟩
  rw [hm, List.range_succ_eq_map]
  simp [mkKline]

/-- The grid sequence ends at the last grid point strictly below the
requested end, which is within one step of the end. -/
theorem gridAll_getLast {step e fromMs : Int} (h : fromMs < e) (hpos : 0 < step) :
    ∃ L, (gridAll step e fromMs).getLast? = some L ∧ L.openTime < e ∧ e ≤ L.openTime + step := by
  have h1 := @gridCount_pos step e fromMs h
  obtain ⟨m, hm⟩ : ∃ m, gridCount step e fromMs = m + 1 :=
    ⟨gridCount step e fromMs - 1, by omega⟩
  refine ⟨mkKline (fromMs + (m : Int) * step), ?_, ?_, ?_⟩
  · unfold gridAll
    rw [hm, List.range_succ, List.map_append]
    simp
  · have hlt : m < gridCount step e fromMs := by omega
    exact (lt_gridCount_iff hpos m).1 hlt
  · have hge : ¬ (m + 1 < gridCount step e fromMs) := by omega
    rw [lt_gridCount_iff hpos (m + 1)] at hge
    show e ≤ fromMs + (m : Int) * step + step
    push_cast at hge
    rw [show ((m : Int) + 1) * step = (m : Int) * step + step by ring] at hge
    generalize hK : (m : Int) * step = K at hge ⊢
    omega

/-- A string ends in at most one character. -/
theorem endsWithChar_unique {t : PyStr} {c d : Char}
    (h : endsWithChar t c = true) (hne : c ≠ d) : endsWithChar t d = false := by
  unfold endsWithChar at *
  cases hl : t.getLast? with
  | none => rw [hl] at h
  | some x =>
    rw [hl] at h
    simp only [beq_iff_eq] at h
    subst h
    simp only [beq_eq_false_iff_ne, ne_eq]
    exact hne

/-- The canonical grid upstream never returns a record dated before the
requested window start. -/
theorem gridFetch_up {step : Int} (hpos : 0 < step) (s i : PyStr) (e fromMs : Int)
    (r : Kline) (hr : r ∈ get_klines (gridFetch step) s i fromMs e) :
    fromMs ≤ r.openTime := by
  simp only [get_klines, gridFetch, gridBatch, List.mem_map, List.mem_range] at hr
  obtain ⟨k, _, hk⟩ := hr
  subst hk
  show fromMs ≤ fromMs + (k : Int) * step
  have h0 : (0 : Int) ≤ (k : Int) * step :=
    mul_nonneg (by exact_mod_cast Nat.zero_le k) hpos.le
  omega

/-! ### The claims -/

/-- C3: when a `get_klines` call fails or returns an empty batch, the loop
terminates immediately with exactly the records accumulated from all prior
calls — no exception, no retry; in particular an empty first batch yields
the empty sequence. -/
theorem spec_C3 :
    (∀ (fetch : BatchFetch) (s i : PyStr) (e : Int) (n : Nat) (c : Int)
       (a : List Kline) (cs : List BatchCall),
       c < e → get_klines fetch s i c e = [] →
       fetchLoop fetch s i e (n + 1) c a cs = (.ok a, cs ++ [⟨s, i, c, e⟩])) ∧
    (∀ (fetch : BatchFetch) (s i : PyStr) (e startMs : Int) (n : Nat),
       startMs < e → get_klines fetch s i startMs e = [] →
       fetch_all_klines_for_period fetch s i startMs e (n + 1)
         = (.ok [], [⟨s, i, startMs, e⟩])) := by
  constructor
  · intro fetch s i e n c a cs h hb
    exact fetchLoop_emptyBatch h hb
  · intro fetch s i e startMs n h hb
    unfold fetch_all_klines_for_period
    rw [fetchLoop_emptyBatch h hb]
    simp

/-- Witness for C3 at a transport that always fails (`none`): the run
returns the empty sequence after a single call and raises nothing. -/
theorem spec_C3_witness :
    ((0 : Int) < 10 ∧ get_klines (fun _ _ _ _ => none) ['B'] ['1','h'] 0 10 = []) ∧
    fetch_all_klines_for_period (fun _ _ _ _ => none) ['B'] ['1','h'] 0 10 3
      = (.ok [], [⟨['B'], ['1','h'], 0, 10⟩]) :=
  ⟨⟨by decide, by decide⟩,
   spec_C3.2 (fun _ _ _ _ => none) ['B'] ['1','h'] 10 0 2 (by decide) (by decide)⟩

/-- C5: when `startMs >= endMs`, the fetch returns the empty sequence,
raises no error, and performs zero upstream calls. -/
theorem spec_C5 (fetch : BatchFetch) (s i : PyStr) (startMs e : Int) (fuel : Nat)
    (h : e ≤ startMs) :
    fetch_all_klines_for_period fetch s i startMs e (fuel + 1) = (.ok [], []) := by
  unfold fetch_all_klines_for_period
  rw [fetchLoop_exit (by omega)]

/-- Witness for C5: the P4 instance `fetchAll(sym, "1h", 1000, 1000, anyFetch)`. -/
theorem spec_C5_witness :
    (1000 : Int) ≤ 1000 ∧
    fetch_all_klines_for_period (fun _ _ _ _ => some [mkKline 0])
      ['B','T','C'] ['1','h'] 1000 1000 1 = (.ok [], []) :=
  ⟨le_refl 1000,
   spec_C5 (fun _ _ _ _ => some [mkKline 0]) ['B','T','C'] ['1','h'] 1000 1000 0
     (le_refl 1000)⟩

/-- C6: the interval-duration computation is a pure function (equal
results on equal tokens); on a token with parsed numeric prefix `n` it
returns `n * 3600000` for unit `h`, `n * 60000` for unit `m`,
`n * 86400000` for unit `d`; and concretely `"2h" -> 7200000`,
`"15m" -> 900000`, `"1d" -> 86400000`. -/
theorem spec_C6 :
    (∀ t : PyStr, intervalDurationMs t = intervalDurationMs t) ∧
    (∀ (t : PyStr) (n : Int), endsWithChar t 'h' = true →
      pyInt t.dropLast = some n → intervalDurationMs t = some (n * 3600000)) ∧
    (∀ (t : PyStr) (n : Int), endsWithChar t 'h' = false → endsWithChar t 'm' = true →
      pyInt t.dropLast = some n → intervalDurationMs t = some (n * 60000)) ∧
    (∀ (t : PyStr) (n : Int), endsWithChar t 'h' = false → endsWithChar t 'm' = false →
      endsWithChar t 'd' = true →
      pyInt t.dropLast = some n → intervalDurationMs t = some (n * 86400000)) ∧
    intervalDurationMs ['2','h'] = some 7200000 ∧
    intervalDurationMs ['1','5','m'] = some 900000 ∧
    intervalDurationMs ['1','d'] = some 86400000 := by
  refine ⟨fun t => rfl, ?_, ?_, ?_, by decide, by decide, by decide⟩
  · intro t n h hp
    simp [intervalDurationMs, h, hp]
  · intro t n h1 h2 hp
    simp [intervalDurationMs, h1, h2, hp]
  · intro t n h1 h2 h3 hp
    simp [intervalDurationMs, h1, h2, h3, hp]

/-- Witness for C6 at the token `"2h"`. -/
theorem spec_C6_witness :
    (endsWithChar ['2','h'] 'h' = true ∧ pyInt (['2','h'] : PyStr).dropLast = some 2) ∧
    intervalDurationMs ['2','h'] = some (2 * 3600000) :=
  ⟨⟨by decide, by decide⟩, spec_C6.2.1 ['2','h'] 2 (by decide) (by decide)⟩

/-- C7: an interval token whose trailing unit is not `h`, `m` or `d` does
not fail the caller: the duration computation substitutes the documented
one-hour default of 3600000 ms, the loop never surfaces the
interval-format error for such a token, and after a full batch it keeps
paginating with that default step. -/
theorem spec_C7 (t : PyStr)
    (h1 : endsWithChar t 'h' = false) (h2 : endsWithChar t 'm' = false)
    (h3 : endsWithChar t 'd' = false) :
    intervalDurationMs t = some 3600000 ∧
    (∀ (fetch : BatchFetch) (s : PyStr) (e : Int) (fuel : Nat) (c : Int)
       (a : List Kline) (cs : List BatchCall),
       (fetchLoop fetch s t e fuel c a cs).1 ≠ .intervalError) ∧
    (∀ (fetch : BatchFetch) (s : PyStr) (e : Int) (n : Nat) (c : Int)
       (a : List Kline) (cs : List BatchCall),
       c < e → get_klines fetch s t c e ≠ [] →
       ¬ (get_klines fetch s t c e).length < 1000 →
       fetchLoop fetch s t e (n + 1) c a cs
         = fetchLoop fetch s t e n
             (((get_klines fetch s t c e).getLastD ⟨0, []⟩).openTime + 3600000)
             (a ++ get_klines fetch s t c e) (cs ++ [⟨s, t, c, e⟩])) := by
  have hd : intervalDurationMs t = some 3600000 := by
    simp [intervalDurationMs, h1, h2, h3]
  refine ⟨hd, ?_, ?_⟩
  · intro fetch s e fuel c a cs
    exact fetchLoop_ne_intervalError hd fuel c a cs
  · intro fetch s e n c a cs h hb hlen
    exact fetchLoop_step h hb hd hlen

/-- Witness for C7 at the token `"3x"`. -/
theorem spec_C7_witness :
    (endsWithChar ['3','x'] 'h' = false ∧ endsWithChar ['3','x'] 'm' = false ∧
      endsWithChar ['3','x'] 'd' = false) ∧
    intervalDurationMs ['3','x'] = some 3600000 :=
  ⟨⟨by decide, by decide, by decide⟩,
   (spec_C7 ['3','x'] (by decide) (by decide) (by decide)).1⟩

/-- C8: a recognized unit whose numeric prefix does not parse makes the
duration computation fail (no silent default); when a non-empty batch
forces that computation the whole fetch aborts with the interval-format
error, delivering no records; and with a computable duration the loop
never surfaces that error — it is the only exception that can reach the
caller. -/
theorem spec_C8 :
    (∀ t : PyStr,
      (endsWithChar t 'h' = true ∨ endsWithChar t 'm' = true ∨ endsWithChar t 'd' = true) →
      pyInt t.dropLast = none → intervalDurationMs t = none) ∧
    (∀ (fetch : BatchFetch) (s i : PyStr) (e : Int) (n : Nat) (c : Int)
       (a : List Kline) (cs : List BatchCall),
       c < e → get_klines fetch s i c e ≠ [] → intervalDurationMs i = none →
       fetchLoop fetch s i e (n + 1) c a cs = (.intervalError, cs ++ [⟨s, i, c, e⟩])) ∧
    (∀ (fetch : BatchFetch) (s i : PyStr) (e step : Int) (fuel : Nat) (c : Int)
       (a : List Kline) (cs : List BatchCall), intervalDurationMs i = some step →
       (fetchLoop fetch s i e fuel c a cs).1 ≠ .intervalError) := by
  refine ⟨?_, ?_, ?_⟩
  · intro t ht hp
    rcases ht with h | h | h
    · simp [intervalDurationMs, h, hp]
    · have hh := endsWithChar_unique h (by decide : 'm' ≠ 'h')
      simp [intervalDurationMs, hh, h, hp]
    · have hh := endsWithChar_unique h (by decide : 'd' ≠ 'h')
      have hm := endsWithChar_unique h (by decide : 'd' ≠ 'm')
      simp [intervalDurationMs, hh, hm, h, hp]
  · intro fetch s i e n c a cs h hb hd
    exact fetchLoop_noDuration h hb hd
  · intro fetch s i e step fuel c a cs hstep
    exact fetchLoop_ne_intervalError hstep fuel c a cs

/-- Witness for C8 at the token `"xh"` and a one-record upstream: the
whole fetch aborts with the interval-format error. -/
theorem spec_C8_witness :
    (endsWithChar ['x','h'] 'h' = true ∧ pyInt (['x','h'] : PyStr).dropLast = none ∧
      (0 : Int) < 10 ∧ get_klines (fun _ _ _ _ => some [mkKline 5]) ['B'] ['x','h'] 0 10 ≠ []) ∧
    intervalDurationMs ['x','h'] = none ∧
    fetchLoop (fun _ _ _ _ => some [mkKline 5]) ['B'] ['x','h'] 10 1 0 [] []
      = (.intervalError, [⟨['B'], ['x','h'], 0, 10⟩]) :=
  ⟨⟨by decide, by decide, by decide, by decide⟩,
   spec_C8.1 ['x','h'] (Or.inl (by decide)) (by decide),
   spec_C8.2.1 (fun _ _ _ _ => some [mkKline 5]) ['B'] ['x','h'] 10 0 0 [] []
     (by decide) (by decide) (by decide)⟩

/-- C1: after a non-empty cap-filling batch whose last record opens at
`T`, the loop's next window starts exactly at `T + step`; if the window is
still open the very next request is made with `fromMs = T + step`; and for
an upstream whose batches never contain records dated before the requested
start, every record appended after that batch has `openTime > T`. -/
theorem spec_C1 (fetch : BatchFetch) (s i : PyStr) (e step : Int) (fuel : Nat)
    (c : Int) (a : List Kline) (cs : List BatchCall)
    (hd : intervalDurationMs i = some step) (hpos : 0 < step)
    (hup : ∀ (fromMs : Int) (r : Kline), r ∈ get_klines fetch s i fromMs e → fromMs ≤ r.openTime)
    (h : c < e) (hb : get_klines fetch s i c e ≠ [])
    (hlen : ¬ (get_klines fetch s i c e).length < 1000) :
    (fetchLoop fetch s i e (fuel + 1 + 1) c a cs
      = fetchLoop fetch s i e (fuel + 1)
          (((get_klines fetch s i c e).getLastD ⟨0, []⟩).openTime + step)
          (a ++ get_klines fetch s i c e) (cs ++ [⟨s, i, c, e⟩])) ∧
    (((get_klines fetch s i c e).getLastD ⟨0, []⟩).openTime + step < e →
      ∃ rest, (fetchLoop fetch s i e (fuel + 1 + 1) c a cs).2
        = cs ++ [⟨s, i, c, e⟩,
            ⟨s, i, ((get_klines fetch s i c e).getLastD ⟨0, []⟩).openTime + step, e⟩] ++ rest) ∧
    (∀ (out : List Kline) (tr : List BatchCall),
      fetchLoop fetch s i e (fuel + 1 + 1) c a cs = (.ok out, tr) →
      ∃ suf, out = (a ++ get_klines fetch s i c e) ++ suf ∧
        ∀ r ∈ suf, ((get_klines fetch s i c e).getLastD ⟨0, []⟩).openTime < r.openTime) := by
  have hstep := @fetchLoop_step fetch s i e (fuel + 1) c a cs step h hb hd hlen
  refine ⟨hstep, ?_, ?_⟩
  · intro hnext
    obtain ⟨rest, hrest⟩ := @fetchLoop_first_call fetch s i e fuel
      (((get_klines fetch s i c e).getLastD ⟨0, []⟩).openTime + step)
      (a ++ get_klines fetch s i c e) (cs ++ [⟨s, i, c, e⟩]) hnext
    refine ⟨rest, ?_⟩
    rw [hstep, hrest]
    simp
  · intro out tr hrun
    rw [hstep] at hrun
    obtain ⟨suf, hsuf, hlb⟩ := fetchLoop_ok_suffix hd hpos hup (fuel + 1) _ _ _ _ _ hrun
    refine ⟨suf, hsuf, ?_⟩
    intro r hr
    have h1 := hlb r hr
    omega

set_option maxRecDepth 1000000 in
/-- Witness for C1: a grid upstream with 1001 hourly records; the first
batch holds exactly 1000 records and the second request starts one step
after its last record. -/
theorem spec_C1_witness :
    ((0 : Int) < 3603600000 ∧
      get_klines (gridFetch 3600000) ['B'] ['1','h'] 0 3603600000 ≠ [] ∧
      ¬ (get_klines (gridFetch 3600000) ['B'] ['1','h'] 0 3603600000).length < 1000 ∧
      ((get_klines (gridFetch 3600000) ['B'] ['1','h'] 0 3603600000).getLastD
          ⟨0, []⟩).openTime + 3600000 < 3603600000) ∧
    ∃ rest, (fetchLoop (gridFetch 3600000) ['B'] ['1','h'] 3603600000 5 0 [] []).2
      = [] ++ [⟨['B'], ['1','h'], 0, 3603600000⟩,
          ⟨['B'], ['1','h'],
            ((get_klines (gridFetch 3600000) ['B'] ['1','h'] 0 3603600000).getLastD
                ⟨0, []⟩).openTime + 3600000, 3603600000⟩] ++ rest :=
  ⟨⟨by decide, by decide, by decide, by decide⟩,
   (spec_C1 (gridFetch 3600000) ['B'] ['1','h'] 3603600000 3600000 3 0 [] []
      (by decide) (by decide)
      (fun fromMs r hr => gridFetch_up (by decide) ['B'] ['1','h'] 3603600000 fromMs r hr)
      (by decide) (by decide) (by decide)).2.1 (by decide)⟩

set_option maxRecDepth 1000000 in
/-- C2 as stated is false: a batch of exactly 1000 records does NOT always
trigger one more round-trip.  With hourly grid data on `[0, 3600000000)`
the first batch holds exactly 1000 records, its last record opens at
`3596400000`, the advanced start `3600000000` already equals the end
bound, and the run stops after exactly this one call. -/
theorem spec_C2_counterexample :
    (get_klines (gridFetch 3600000) ['B'] ['1','h'] 0 3600000000).length = 1000 ∧
    (fetch_all_klines_for_period (gridFetch 3600000) ['B'] ['1','h'] 0 3600000000 5).2
      = [⟨['B'], ['1','h'], 0, 3600000000⟩] :=
  ⟨by decide, by decide⟩

/-- C2 amended: a batch of fewer than 1000 records is terminal — the loop
returns everything accumulated plus that batch and makes no further call;
a batch of exactly 1000 records triggers one more round-trip (even one
that returns empty) provided the advanced start `T + step` still lies
strictly before `endMs`. -/
theorem spec_C2 :
    (∀ (fetch : BatchFetch) (s i : PyStr) (e step : Int) (n : Nat) (c : Int)
       (a : List Kline) (cs : List BatchCall),
       c < e → get_klines fetch s i c e ≠ [] → intervalDurationMs i = some step →
       (get_klines fetch s i c e).length < 1000 →
       fetchLoop fetch s i e (n + 1) c a cs
         = (.ok (a ++ get_klines fetch s i c e), cs ++ [⟨s, i, c, e⟩])) ∧
    (∀ (fetch : BatchFetch) (s i : PyStr) (e step : Int) (n : Nat) (c : Int)
       (a : List Kline) (cs : List BatchCall),
       c < e → intervalDurationMs i = some step →
       (get_klines fetch s i c e).length = 1000 →
       ((get_klines fetch s i c e).getLastD ⟨0, []⟩).openTime + step < e →
       ∃ rest, (fetchLoop fetch s i e (n + 1 + 1) c a cs).2
         = cs ++ [⟨s, i, c, e⟩,
             ⟨s, i, ((get_klines fetch s i c e).getLastD ⟨0, []⟩).openTime + step, e⟩]
           ++ rest) := by
  constructor
  · intro fetch s i e step n c a cs h hb hd hlen
    exact fetchLoop_underfill h hb hd hlen
  · intro fetch s i e step n c a cs h hd hlen hnext
    have hb : get_klines fetch s i c e ≠ [] := by
      intro hnil
      rw [hnil] at hlen
      simp at hlen
    have hlen2 : ¬ (get_klines fetch s i c e).length < 1000 := by omega
    have hstep := @fetchLoop_step fetch s i e (n + 1) c a cs step h hb hd hlen2
    obtain ⟨rest, hrest⟩ := @fetchLoop_first_call fetch s i e n
      (((get_klines fetch s i c e).getLastD ⟨0, []⟩).openTime + step)
      (a ++ get_klines fetch s i c e) (cs ++ [⟨s, i, c, e⟩]) hnext
    refine ⟨rest, ?_⟩
    rw [hstep, hrest]
    simp

set_option maxRecDepth 1000000 in
/-- Witness for C2 (amended), terminal under-fill part: the P5 instance —
a grid upstream holding 999 hourly records answers the first call with all
of them; the run returns exactly those records after exactly one call. -/
theorem spec_C2_witness :
    ((0 : Int) < 3596400000 ∧
      get_klines (gridFetch 3600000) ['B'] ['1','h'] 0 3596400000 ≠ [] ∧
      (get_klines (gridFetch 3600000) ['B'] ['1','h'] 0 3596400000).length < 1000) ∧
    fetchLoop (gridFetch 3600000) ['B'] ['1','h'] 3596400000 3 0 [] []
      = (.ok ([] ++ get_klines (gridFetch 3600000) ['B'] ['1','h'] 0 3596400000),
         [] ++ [⟨['B'], ['1','h'], 0, 3596400000⟩]) :=
  ⟨⟨by decide, by decide, by decide⟩,
   spec_C2.1 (gridFetch 3600000) ['B'] ['1','h'] 3596400000 3600000 2 0 [] []
     (by decide) (by decide) (by decide) (by decide)⟩

/-- C4: against any synthetic upstream answering every request with the
next contiguous, non-overlapping grid page covering `[startMs, endMs)` at
the interval's step, the run returns normally with exactly the full grid:
`openTime` strictly increases, the first record opens at `startMs`, and
the last record is the final grid point strictly below `endMs` (within one
step of it). -/
theorem spec_C4 (fetch : BatchFetch) (s i : PyStr) (startMs e step : Int) (fuel : Nat)
    (hd : intervalDurationMs i = some step) (hpos : 0 < step)
    (hgrid : ∀ fromMs : Int, get_klines fetch s i fromMs e = gridBatch step e fromMs)
    (hstart : startMs < e) (hfuel : gridCount step e startMs ≤ fuel * 1000) :
    ∃ tr, fetch_all_klines_for_period fetch s i startMs e (fuel + 1)
        = (.ok (gridAll step e startMs), tr) ∧
      (gridAll step e startMs).Pairwise (fun r r2 => r.openTime < r2.openTime) ∧
      (gridAll step e startMs).head? = some (mkKline startMs) ∧
      ∃ L, (gridAll step e startMs).getLast? = some L ∧
        L.openTime < e ∧ e ≤ L.openTime + step := by
  obtain ⟨tr, htr⟩ := fetchLoop_grid_run hd hpos hgrid fuel startMs [] [] hfuel
  refine ⟨tr, ?_, gridAll_pairwise hpos, gridAll_head hstart, gridAll_getLast hstart hpos⟩
  unfold fetch_all_klines_for_period
  simpa using htr

/-- Witness for C4: three hourly grid points on `[0, 10800000)`. -/
theorem spec_C4_witness :
    (intervalDurationMs ['1','h'] = some 3600000 ∧ (0 : Int) < 3600000 ∧
      (0 : Int) < 10800000 ∧ gridCount 3600000 10800000 0 ≤ 1 * 1000) ∧
    ∃ tr, fetch_all_klines_for_period (gridFetch 3600000) ['B'] ['1','h'] 0 10800000 (1 + 1)
        = (.ok (gridAll 3600000 10800000 0), tr) ∧
      (gridAll 3600000 10800000 0).Pairwise (fun r r2 => r.openTime < r2.openTime) ∧
      (gridAll 3600000 10800000 0).head? = some (mkKline 0) ∧
      ∃ L, (gridAll 3600000 10800000 0).getLast? = some L ∧
        L.openTime < 10800000 ∧ 10800000 ≤ L.openTime + 3600000 :=
  ⟨⟨by decide, by decide, by decide, by decide⟩,
   spec_C4 (gridFetch 3600000) ['B'] ['1','h'] 0 10800000 3600000 1
     (by decide) (by decide) (fun _ => rfl) (by decide) (by decide)⟩

/-- C9: during a run, every upstream call carries the caller's original
end bound as its `toMs`; every call's `fromMs` lies in `[startMs, endMs)`
(`start < end` is the loop's continuation condition); and the request
starts advance strictly monotonically across iterations. -/
theorem spec_C9 (fetch : BatchFetch) (s i : PyStr) (startMs e step : Int) (fuel : Nat)
    (hd : intervalDurationMs i = some step) (hpos : 0 < step)
    (hup : ∀ (fromMs : Int) (r : Kline), r ∈ get_klines fetch s i fromMs e → fromMs ≤ r.openTime) :
    (∀ x ∈ (fetch_all_klines_for_period fetch s i startMs e fuel).2,
      x.symbol = s ∧ x.interval = i ∧ x.toMs = e ∧ startMs ≤ x.fromMs ∧ x.fromMs < e) ∧
    (fetch_all_klines_for_period fetch s i startMs e fuel).2.Pairwise
      (fun x y => x.fromMs < y.fromMs) := by
  obtain ⟨nc, hnc, hall, hpw⟩ := fetchLoop_calls_spec hd hpos hup fuel startMs [] []
  unfold fetch_all_klines_for_period
  rw [hnc]
  constructor
  · intro x hx
    simp only [List.nil_append] at hx
    exact hall x hx
  · simpa using hpw

/-- Witness for C9: the three-point hourly grid run. -/
theorem spec_C9_witness :
    (intervalDurationMs ['1','h'] = some 3600000 ∧ (0 : Int) < 3600000) ∧
    (∀ x ∈ (fetch_all_klines_for_period (gridFetch 3600000) ['B'] ['1','h'] 0 10800000 4).2,
      x.symbol = ['B'] ∧ x.interval = ['1','h'] ∧ x.toMs = 10800000 ∧
        (0 : Int) ≤ x.fromMs ∧ x.fromMs < 10800000) ∧
    (fetch_all_klines_for_period (gridFetch 3600000) ['B'] ['1','h'] 0 10800000 4).2.Pairwise
      (fun x y => x.fromMs < y.fromMs) :=
  ⟨⟨by decide, by decide⟩,
   spec_C9 (gridFetch 3600000) ['B'] ['1','h'] 0 10800000 3600000 4 (by decide) (by decide)
     (fun fromMs r hr => gridFetch_up (by decide) ['B'] ['1','h'] 10800000 fromMs r hr)⟩

/-- C10: the loop terminates for every upstream, provided the interval
duration is computable and positive (positive numeric prefix, or the
positive one-hour default) and every non-empty batch ends no earlier than
the window start it was requested with: the window start then strictly
increases by at least `step` each iteration, so fuel covering
`(endMs - startMs) / step` iterations is never exhausted. -/
theorem spec_C10 (fetch : BatchFetch) (s i : PyStr) (startMs e step : Int) (fuel : Nat)
    (hd : intervalDurationMs i = some step) (hpos : 0 < step)
    (hlast : ∀ fromMs : Int, get_klines fetch s i fromMs e ≠ [] →
      fromMs ≤ ((get_klines fetch s i fromMs e).getLastD ⟨0, []⟩).openTime)
    (hfuel : e - startMs ≤ step * fuel) :
    (fetch_all_klines_for_period fetch s i startMs e (fuel + 1)).1 ≠ .outOfFuel ∧
    (∀ c : Int, get_klines fetch s i c e ≠ [] →
      c < ((get_klines fetch s i c e).getLastD ⟨0, []⟩).openTime + step) := by
  constructor
  · exact fetchLoop_ne_outOfFuel hd hpos hlast fuel startMs hfuel [] []
  · intro c hb
    have h1 := hlast c hb
    omega

/-- Witness for C10: the three-point hourly grid run terminates. -/
theorem spec_C10_witness :
    (intervalDurationMs ['1','h'] = some 3600000 ∧ (0 : Int) < 3600000 ∧
      (10800000 : Int) - 0 ≤ 3600000 * (3 : Nat)) ∧
    (fetch_all_klines_for_period (gridFetch 3600000) ['B'] ['1','h'] 0 10800000 (3 + 1)).1
      ≠ .outOfFuel :=
  ⟨⟨by decide, by decide, by decide⟩,
   (spec_C10 (gridFetch 3600000) ['B'] ['1','h'] 0 10800000 3600000 3 (by decide) (by decide)
      (fun fromMs hb =>
        gridFetch_up (by decide) ['B'] ['1','h'] 10800000 fromMs _
          (getLastD_mem _ hb _))
      (by decide)).1⟩

end BinanceFetch
